import Mathlib

/-!
Verification development for the sink-receiver Kafka consumer
(`client/client.go`).  The Go code is shallowly embedded: Go `map[string]V`
values become association lists over `String`, Go byte slices become
`List Nat` together with an `Option` wrapper recording slice nil-ness
(every slice in this program is built by `append` chains starting from a
nil slice or comes from a protobuf bytes field, so it is nil exactly when
it has no bytes), and Go `int32` values become `Int` with explicit
wrap-around where arithmetic occurs.  External collaborators
(protobuf unmarshalling, JSON marshalling, the Kafka consumer
constructor and subscription) are passed in as explicit function or
result parameters.
-/

namespace SinkReceiver

/-- Byte strings: contents of a Go byte slice. -/
abbrev Bytes := List Nat

/-- Lookup in the association-list model of a Go `map[string]α`. -/
def alookup {α : Type} : List (String × α) → String → Option α
  | [], _ => none
  | (k', v) :: rest, k => if k' = k then some v else alookup rest k

/-- Go `delete(m, k)`: remove every binding of `k`. -/
def aerase {α : Type} : List (String × α) → String → List (String × α)
  | [], _ => []
  | (k', v) :: rest, k =>
      if k' = k then aerase rest k else (k', v) :: aerase rest k

/-- Go `m[k] = v`: bind `k` to `v`, dropping any previous binding. -/
def aset {α : Type} (m : List (String × α)) (k : String) (v : α) :
    List (String × α) :=
  (k, v) :: aerase m k

/-- Two's-complement wrap-around of Go `int32` arithmetic. -/
def wrap32 (n : Int) : Int := (n + 2 ^ 31) % 2 ^ 32 - 2 ^ 31

/-- The `ipcMessage` struct of `client.go` (normalized fragment):
1-based chunk ordinal, declared total, message identity, content bytes. -/
structure IpcMessage where
  chunk : Int
  total : Int
  id : String
  content : Bytes
deriving DecidableEq

/-- The semantic fields of an unmarshalled `rpc.RpcMessageProto`. -/
structure RpcMessageProto where
  rpcId : String
  currentChunkNumber : Int
  totalChunks : Int
  rpcContent : Bytes
deriving DecidableEq

/-- The semantic fields of an unmarshalled `sink.SinkMessage`. -/
structure SinkMessage where
  messageId : String
  currentChunkNumber : Int
  totalChunks : Int
  content : Bytes
deriving DecidableEq

/-- The `rpc` branch of `getIpcMessage`: normalization of an
unmarshalled RPC envelope (chunks start at 0 on the wire, so one is
added, with `int32` wrap-around). -/
def getIpcMessageRpc (m : RpcMessageProto) : IpcMessage :=
  ⟨wrap32 (m.currentChunkNumber + 1), m.totalChunks, m.rpcId, m.rpcContent⟩

/-- The `sink` branch of `getIpcMessage`: normalization of an
unmarshalled Sink envelope. -/
def getIpcMessageSink (m : SinkMessage) : IpcMessage :=
  ⟨wrap32 (m.currentChunkNumber + 1), m.totalChunks, m.messageId, m.content⟩

/-- `getIpcMessage` of `client.go`: dispatch on the configured IPC mode
string; any mode other than `"rpc"` takes the sink path.  The protobuf
unmarshallers are external and passed as parameters; `none` is their
failure. -/
def getIpcMessage (ipc : String)
    (rpcUnmarshal : Bytes → Option RpcMessageProto)
    (sinkUnmarshal : Bytes → Option SinkMessage)
    (raw : Bytes) : Option IpcMessage :=
  if ipc = "rpc" then (rpcUnmarshal raw).map getIpcMessageRpc
  else (sinkUnmarshal raw).map getIpcMessageSink

/-- The mutable reassembly state of `KafkaClient`: the `msgBuffer` and
`chunkTracker` maps. -/
structure KState where
  msgBuffer : List (String × Bytes)
  chunkTracker : List (String × Int)
deriving DecidableEq

/-- `createVariables` of `client.go`: both maps start empty. -/
def createVariables : KState := ⟨[], []⟩

/-- The Go value of a byte slice built by appending these bytes to a nil
slice: nil (`none`) exactly when no bytes were ever appended. -/
def goOpt (l : Bytes) : Option Bytes := if l = [] then none else some l

/-- `bufferCleanup` of `client.go`: delete the id from both maps. -/
def bufferCleanup (st : KState) (id : String) : KState :=
  ⟨aerase st.msgBuffer id, aerase st.chunkTracker id⟩

/-- The complete payload assembled on the final-fragment branch of
`processMessage`: the content itself when `total == 1`, otherwise the
buffered bytes (empty when absent) followed by the final content. -/
def finalData (st : KState) (m : IpcMessage) : Bytes :=
  if m.total = 1 then m.content
  else ((alookup st.msgBuffer m.id).getD []) ++ m.content

/-- The state-transforming core of `processMessage` (after `getIpcMessage`):
a non-final chunk is appended to the buffer when it is above the recorded
watermark and silently discarded otherwise, returning nil; a final chunk
returns the assembled payload and cleans both maps. -/
def processMessage (st : KState) (m : IpcMessage) : Option Bytes × KState :=
  if m.chunk ≠ m.total then
    if (alookup st.chunkTracker m.id).getD 0 < m.chunk then
      (none,
        ⟨aset st.msgBuffer m.id
            (((alookup st.msgBuffer m.id).getD []) ++ m.content),
          aset st.chunkTracker m.id m.chunk⟩)
    else (none, st)
  else
    (goOpt (finalData st m), bufferCleanup st m.id)

/-- `processMessage` on a raw Kafka payload: decode failure returns nil
and leaves the state untouched. -/
def processRawMessage (ipc : String)
    (rpcUnmarshal : Bytes → Option RpcMessageProto)
    (sinkUnmarshal : Bytes → Option SinkMessage)
    (st : KState) (raw : Bytes) : Option Bytes × KState :=
  match getIpcMessage ipc rpcUnmarshal sinkUnmarshal raw with
  | none => (none, st)
  | some m => processMessage st m

/-- Sequential application of fragments, collecting each call's return
value, as the dispatch loop in `Start` does. -/
def applyAll (st : KState) : List IpcMessage → List (Option Bytes) × KState
  | [] => ([], st)
  | m :: rest =>
      ((processMessage st m).1 :: (applyAll (processMessage st m).2 rest).1,
        (applyAll (processMessage st m).2 rest).2)

/-- The fragments of one message with chunk ordinals `k, k+1, …` and the
given declared total. -/
def chunkSeqFrom (id : String) (total : Int) : Int → List Bytes → List IpcMessage
  | _, [] => []
  | k, p :: ps => ⟨k, total, id, p⟩ :: chunkSeqFrom id total (k + 1) ps

/-- The fragments of one message delivered in chunk order `1..n`. -/
def chunkSeq (id : String) (ps : List Bytes) : List IpcMessage :=
  chunkSeqFrom id (ps.length : Int) 1 ps

/-- The dispatch decision of `Start` in non-telemetry mode: the handler
is invoked exactly on a non-nil returned payload (`data != nil`). -/
def startHandles (data : Option Bytes) : List Bytes :=
  match data with
  | none => []
  | some d => [d]

/-- One element of `TelemetryMessageLog.Message`: an inner record's bytes. -/
structure TelemetryMessage where
  bytes : Bytes
deriving DecidableEq

/-- An unmarshalled `telemetry.TelemetryMessageLog` envelope. -/
structure TelemetryMessageLog where
  message : List TelemetryMessage
deriving DecidableEq

/-- An unmarshalled `netflow.FlowMessage`; its structured contents are
opaque to the reassembly logic. -/
structure FlowMessage where
  raw : Bytes
deriving DecidableEq

/-- The per-record loop of `processTelemetry`: decode each inner record
in order, invoking the handler (recorded in the returned list) after each
successful decode, and abort the whole batch on the first failure. -/
def processRecords (unmarshalFlow : Bytes → Option FlowMessage)
    (marshalIndent : FlowMessage → Bytes) :
    List TelemetryMessage → Except String Unit × List Bytes
  | [] => (Except.ok (), [])
  | r :: rest =>
      match unmarshalFlow r.bytes with
      | none => (Except.error "invalid netflow message received", [])
      | some flow =>
          ((processRecords unmarshalFlow marshalIndent rest).1,
            marshalIndent flow ::
              (processRecords unmarshalFlow marshalIndent rest).2)

/-- `processTelemetry` of `client.go`: unmarshal the outer envelope, then
run the per-record loop.  The returned list is the sequence of handler
(`action`) invocations, in order. -/
def processTelemetry (unmarshalLog : Bytes → Option TelemetryMessageLog)
    (unmarshalFlow : Bytes → Option FlowMessage)
    (marshalIndent : FlowMessage → Bytes)
    (data : Bytes) : Except String Unit × List Bytes :=
  match unmarshalLog data with
  | none => (Except.error "invalid telemetry message received", [])
  | some msgLog => processRecords unmarshalFlow marshalIndent msgLog.message

/-- The consumer-creation and subscription tail of `KafkaClient.Initialize`:
both are external calls whose outcomes are passed in.  On success the
effective IPC mode string is returned. -/
def clientInitRest (ipcEff : String)
    (newConsumer subscribe : Except String Unit) : Except String String :=
  match newConsumer with
  | Except.error e => Except.error ("cannot create consumer: " ++ e)
  | Except.ok _ =>
      match subscribe with
      | Except.error e => Except.error ("cannot subscribe to topic: " ++ e)
      | Except.ok _ => Except.ok ipcEff

/-- `KafkaClient.Initialize` of `client.go`: reject a second
initialization, default an empty IPC mode to `"sink"`, reject any mode
other than `"sink"`/`"rpc"`, then create the consumer and subscribe. -/
def clientInit (alreadyInitialized : Bool) (ipc : String)
    (newConsumer subscribe : Except String Unit) : Except String String :=
  if alreadyInitialized then Except.error "consumer already initialized"
  else if ipc = "" then clientInitRest "sink" newConsumer subscribe
  else if ipc ≠ "sink" ∧ ipc ≠ "rpc" then
    Except.error ("invalid IPC " ++ ipc ++ ". Expected sink or rpc")
  else clientInitRest ipc newConsumer subscribe

/-- States of the reassembly maps reachable from `createVariables` by any
sequence of `processMessage` and `bufferCleanup` calls. -/
inductive Reachable : KState → Prop where
  | init : Reachable createVariables
  | msg (st : KState) (m : IpcMessage) :
      Reachable st → Reachable (processMessage st m).2
  | cleanup (st : KState) (id : String) :
      Reachable st → Reachable (bufferCleanup st id)

/-- Concrete outer-envelope decoder used to exhibit telemetry behaviour:
the byte string `[0]` decodes to an envelope of three inner records. -/
def demoUnmarshalLog (data : Bytes) : Option TelemetryMessageLog :=
  if data = [0] then some ⟨[⟨[1]⟩, ⟨[2]⟩, ⟨[3]⟩]⟩ else none

/-- Concrete inner-record decoder: the record `[2]` (position 2 of 3 in
`demoUnmarshalLog`'s envelope) is malformed, all others decode. -/
def demoUnmarshalFlow (b : Bytes) : Option FlowMessage :=
  if b = [2] then none else some ⟨b⟩

/-- Concrete JSON serialization stand-in. -/
def demoMarshalIndent (f : FlowMessage) : Bytes := f.raw

section AssocLemmas

variable {α : Type}

theorem alookup_aerase_self (m : List (String × α)) (k : String) :
    alookup (aerase m k) k = none := by
  induction m with
  | nil => rfl
  | cons p rest ih =>
      obtain ⟨k', v⟩ := p
      by_cases h : k' = k
      · simpa [aerase, h] using ih
      · simpa [aerase, alookup, h] using ih

theorem alookup_aerase_ne (m : List (String × α)) (k k' : String)
    (h : k' ≠ k) : alookup (aerase m k) k' = alookup m k' := by
  induction m with
  | nil => rfl
  | cons p rest ih =>
      obtain ⟨k'', v⟩ := p
      have hkk' : k ≠ k' := fun hc => h hc.symm
      by_cases hk : k'' = k
      · simp [aerase, alookup, hk, hkk', ih]
      · by_cases hk' : k'' = k'
        · simp [aerase, alookup, hk, hk', h, ih]
        · simp [aerase, alookup, hk, hk', ih]

theorem alookup_aset_self (m : List (String × α)) (k : String) (v : α) :
    alookup (aset m k v) k = some v := by
  simp [aset, alookup]

theorem alookup_aset_ne (m : List (String × α)) (k k' : String) (v : α)
    (h : k' ≠ k) : alookup (aset m k v) k' = alookup m k' := by
  have : k ≠ k' := fun hc => h hc.symm
  simp [aset, alookup, this, alookup_aerase_ne m k k' h]

theorem aerase_of_alookup_none (m : List (String × α)) (k : String)
    (h : alookup m k = none) : aerase m k = m := by
  induction m with
  | nil => rfl
  | cons p rest ih =>
      obtain ⟨k', v⟩ := p
      by_cases hk : k' = k
      · simp [alookup, hk] at h
      · simp [alookup, hk] at h
        simp [aerase, hk, ih h]

end AssocLemmas

theorem processMessage_nonfinal_fst (st : KState) (m : IpcMessage)
    (h : m.chunk ≠ m.total) : (processMessage st m).1 = none := by
  by_cases hacc : (alookup st.chunkTracker m.id).getD 0 < m.chunk <;>
    simp [processMessage, h, hacc]

/-- Claim C4: for every table state and every non-final fragment
(`chunkIndex < totalChunks`), applying the fragment twice in sequence
returns no payload both times and leaves exactly the table state that a
single application produces, so the eventual completed payload is the
same as if it had been applied once. -/
theorem chunk_application_idempotent (st : KState) (m : IpcMessage)
    (h : m.chunk < m.total) :
    (processMessage st m).1 = none ∧
    processMessage (processMessage st m).2 m
      = (none, (processMessage st m).2) := by
  have hne : m.chunk ≠ m.total := ne_of_lt h
  refine ⟨processMessage_nonfinal_fst st m hne, ?_⟩
  by_cases hacc : (alookup st.chunkTracker m.id).getD 0 < m.chunk
  · have hst : (processMessage st m).2
        = ⟨aset st.msgBuffer m.id
              (((alookup st.msgBuffer m.id).getD []) ++ m.content),
            aset st.chunkTracker m.id m.chunk⟩ := by
      simp [processMessage, hne, hacc]
    rw [hst]
    have htr : (alookup (aset st.chunkTracker m.id m.chunk) m.id).getD 0
        = m.chunk := by rw [alookup_aset_self]; rfl
    simp [processMessage, hne, htr]
  · have hst : (processMessage st m).2 = st := by
      simp [processMessage, hne, hacc]
    rw [hst]
    simp [processMessage, hne, hacc]

theorem chunk_application_idempotent_witness :
    ((1 : Int) < 3) ∧
    (processMessage createVariables ⟨1, 3, "m", [7]⟩).1 = none ∧
    processMessage (processMessage createVariables ⟨1, 3, "m", [7]⟩).2
        ⟨1, 3, "m", [7]⟩
      = (none, (processMessage createVariables ⟨1, 3, "m", [7]⟩).2) :=
  ⟨by decide,
    (chunk_application_idempotent createVariables ⟨1, 3, "m", [7]⟩ (by decide)).1,
    (chunk_application_idempotent createVariables ⟨1, 3, "m", [7]⟩ (by decide)).2⟩

/-- Claim C6: a redelivered non-final fragment whose chunk ordinal is at
or below the recorded watermark is discarded with no change at all to
the table (buffered bytes and watermark included), so the eventual
completion is exactly what it would have been without the redelivery. -/
theorem stale_fragment_rejected (st : KState) (m : IpcMessage)
    (hnf : m.chunk ≠ m.total)
    (hstale : m.chunk ≤ (alookup st.chunkTracker m.id).getD 0) :
    processMessage st m = (none, st) := by
  have hacc : ¬ (alookup st.chunkTracker m.id).getD 0 < m.chunk :=
    not_lt.mpr hstale
  simp [processMessage, hnf, hacc]

theorem stale_fragment_rejected_witness :
    ((1 : Int) ≠ 3) ∧
    ((1 : Int) ≤ (alookup
        (processMessage createVariables ⟨2, 3, "m", [1, 2]⟩).2.chunkTracker
        "m").getD 0) ∧
    processMessage (processMessage createVariables ⟨2, 3, "m", [1, 2]⟩).2
        ⟨1, 3, "m", [9]⟩
      = (none, (processMessage createVariables ⟨2, 3, "m", [1, 2]⟩).2) :=
  ⟨by decide, by decide,
    stale_fragment_rejected _ _ (by decide) (by decide)⟩

/-- Claim C7 counterexample: a `chunkIndex = totalChunks = 1` fragment
does not leave the table untouched — the unconditional `bufferCleanup`
deletes a pre-existing entry for its messageID. -/
theorem single_fragment_table_counterexample :
    (processMessage ⟨[("m", [1])], [("m", 1)]⟩ ⟨1, 1, "m", [5]⟩).2
      ≠ (⟨[("m", [1])], [("m", 1)]⟩ : KState) := by decide

/-- Claim C7 (amended): a fragment with `chunkIndex = totalChunks = 1`
returns its own payload directly, never reading or creating an entry;
the table is unchanged when no entry exists for its messageID, but any
pre-existing entry for that messageID is deleted by the cleanup. -/
theorem single_fragment_fast_path (st : KState) (m : IpcMessage)
    (h1 : m.chunk = 1) (h2 : m.total = 1) :
    (processMessage st m).1 = goOpt m.content ∧
    (processMessage st m).2 = bufferCleanup st m.id ∧
    (alookup st.msgBuffer m.id = none → alookup st.chunkTracker m.id = none →
      (processMessage st m).2 = st) := by
  refine ⟨?_, ?_, ?_⟩
  · simp [processMessage, h1, h2, finalData]
  · simp [processMessage, h1, h2]
  · intro hb ht
    obtain ⟨b, t⟩ := st
    simp [processMessage, h1, h2, bufferCleanup,
      aerase_of_alookup_none _ _ hb, aerase_of_alookup_none _ _ ht]

theorem single_fragment_fast_path_witness :
    ((1 : Int) = 1) ∧
    (processMessage createVariables ⟨1, 1, "m", [5]⟩).1 = goOpt [5] ∧
    (processMessage createVariables ⟨1, 1, "m", [5]⟩).2 = createVariables :=
  ⟨rfl,
    (single_fragment_fast_path createVariables ⟨1, 1, "m", [5]⟩ rfl rfl).1,
    (single_fragment_fast_path createVariables ⟨1, 1, "m", [5]⟩ rfl rfl).2.2
      rfl rfl⟩

/-- Claim C3 counterexample: a completed message whose reconstructed
payload has zero length is returned as nil — the same value every
incomplete application returns — and the dispatch loop does not invoke
the handler for it.  There is no presence indicator distinct from
emptiness. -/
theorem zero_length_completion_counterexample :
    (processMessage createVariables ⟨1, 2, "m", []⟩).1 = none ∧
    (processMessage (processMessage createVariables ⟨1, 2, "m", []⟩).2
        ⟨2, 2, "m", []⟩).1 = none ∧
    startHandles
        (processMessage (processMessage createVariables ⟨1, 2, "m", []⟩).2
          ⟨2, 2, "m", []⟩).1 = [] := by
  decide

/-- Claim C3 (amended): completion is signalled by returning a non-nil
payload; a completed zero-length payload is returned as nil,
indistinguishable from "incomplete", and is not dispatched — emptiness
itself, not a separate presence flag, is the completion indicator. -/
theorem completion_signalled_by_nonempty (st : KState) (m : IpcMessage)
    (h : m.chunk = m.total) :
    (processMessage st m).1 = goOpt (finalData st m) ∧
    ((processMessage st m).1 = none ↔ finalData st m = []) ∧
    startHandles (processMessage st m).1
      = if finalData st m = [] then [] else [finalData st m] := by
  have hne : ¬ m.chunk ≠ m.total := not_not_intro h
  refine ⟨by simp [processMessage, hne], ?_, ?_⟩ <;>
    by_cases hd : finalData st m = [] <;>
      simp [processMessage, hne, goOpt, hd, startHandles]

theorem completion_signalled_by_nonempty_witness :
    ((1 : Int) = 1) ∧
    (processMessage createVariables ⟨1, 1, "m", [9]⟩).1
        = goOpt (finalData createVariables ⟨1, 1, "m", [9]⟩) ∧
    (((processMessage createVariables ⟨1, 1, "m", [9]⟩).1 = none)
        ↔ finalData createVariables ⟨1, 1, "m", [9]⟩ = []) ∧
    startHandles (processMessage createVariables ⟨1, 1, "m", [9]⟩).1
        = if finalData createVariables ⟨1, 1, "m", [9]⟩ = [] then []
          else [finalData createVariables ⟨1, 1, "m", [9]⟩] :=
  ⟨rfl,
    (completion_signalled_by_nonempty createVariables ⟨1, 1, "m", [9]⟩ rfl).1,
    (completion_signalled_by_nonempty createVariables ⟨1, 1, "m", [9]⟩ rfl).2.1,
    (completion_signalled_by_nonempty createVariables ⟨1, 1, "m", [9]⟩ rfl).2.2⟩

/-- Claim C1 counterexample: after "m1" completes (releasing its full
payload), redelivering the final fragment releases a second payload for
the same messageID — the entry was deleted on completion, so the
redelivered final fragment is treated as a fresh message. -/
theorem second_release_counterexample :
    (applyAll createVariables
        [⟨1, 2, "m1", [65, 66]⟩, ⟨2, 2, "m1", [67, 68]⟩,
          ⟨2, 2, "m1", [67, 68]⟩]).1
      = [none, some [65, 66, 67, 68], some [67, 68]] := by decide

/-- Claim C1 (amended): a payload is released only when a final fragment
(`chunkIndex = totalChunks`) is applied — across any fragment sequence
the number of releases never exceeds the number of final-fragment
applications — so exactly-once release for a messageID holds exactly
when its final fragment is applied once; a final fragment redelivered
after completion produces an additional release. -/
theorem release_only_on_final_fragments (st : KState) (ms : List IpcMessage) :
    ((applyAll st ms).1.countP Option.isSome)
      ≤ ms.countP (fun m => m.chunk == m.total) := by
  induction ms generalizing st with
  | nil => simp [applyAll]
  | cons m rest ih =>
      have h1 := ih (processMessage st m).2
      by_cases h : m.chunk = m.total
      · have h3 : (m.chunk == m.total) = true := by simpa using h
        simp only [applyAll, List.countP_cons, h3, if_true]
        have h2 : (if (Option.isSome (processMessage st m).1) = true
            then 1 else 0) ≤ 1 := by split <;> omega
        omega
      · have h2 : (processMessage st m).1 = none :=
          processMessage_nonfinal_fst st m h
        have h3 : (m.chunk == m.total) = false := by simpa using h
        simp only [applyAll, List.countP_cons, h2, h3, Option.isSome_none,
          if_false]
        simpa using h1

/-- Claim C8: a sink-format envelope and an rpc-format envelope carrying
the same identity, 0-based chunk ordinal, total count and content bytes
normalize to identical fragment descriptors, and (whenever the `int32`
increment does not wrap) the normalized 1-based chunk ordinal is the
wire ordinal plus one. -/
theorem format_normalization (id : String) (c t : Int) (content : Bytes)
    (hlo : -(2 ^ 31) ≤ c) (hhi : c + 1 < 2 ^ 31) :
    getIpcMessageSink ⟨id, c, t, content⟩
        = getIpcMessageRpc ⟨id, c, t, content⟩ ∧
    getIpcMessageSink ⟨id, c, t, content⟩ = ⟨c + 1, t, id, content⟩ := by
  have hw : wrap32 (c + 1) = c + 1 := by unfold wrap32; omega
  exact ⟨rfl, by simp [getIpcMessageSink, hw]⟩

theorem format_normalization_witness :
    (-(2 ^ 31) ≤ (1 : Int)) ∧ ((1 : Int) + 1 < 2 ^ 31) ∧
    getIpcMessageSink ⟨"id1", 1, 3, [7]⟩
        = getIpcMessageRpc ⟨"id1", 1, 3, [7]⟩ ∧
    getIpcMessageSink ⟨"id1", 1, 3, [7]⟩ = ⟨2, 3, "id1", [7]⟩ :=
  ⟨by decide, by decide,
    (format_normalization "id1" 1 3 [7] (by decide) (by decide)).1,
    (format_normalization "id1" 1 3 [7] (by decide) (by decide)).2⟩

theorem clientInitRest_ok_iff (ipcEff : String) (nc sub : Except String Unit)
    (s : String) :
    clientInitRest ipcEff nc sub = Except.ok s ↔
      (nc = Except.ok () ∧ sub = Except.ok () ∧ s = ipcEff) := by
  cases nc with
  | error e => simp [clientInitRest]
  | ok u =>
      cases u
      cases sub with
      | error e => simp [clientInitRest]
      | ok v =>
          cases v
          simp [clientInitRest, eq_comm]

/-- Claim C9: `Initialize` fails exactly when the consumer was already
initialized, the configured mode is a non-empty string other than
`"sink"`/`"rpc"`, or the external transport setup (consumer creation or
topic subscription) fails; an empty mode defaults to `"sink"` and
succeeds; and message decoding never produces a mode error — for every
mode string its only failure source is the respective unmarshaller. -/
theorem startup_mode_validation (alreadyInitialized : Bool) (ipc : String)
    (newConsumer subscribe : Except String Unit)
    (rpcUnmarshal : Bytes → Option RpcMessageProto)
    (sinkUnmarshal : Bytes → Option SinkMessage) (raw : Bytes) :
    ((∃ s, clientInit alreadyInitialized ipc newConsumer subscribe
          = Except.ok s) ↔
        (alreadyInitialized = false ∧
          (ipc = "" ∨ ipc = "sink" ∨ ipc = "rpc") ∧
          newConsumer = Except.ok () ∧ subscribe = Except.ok ())) ∧
    clientInit false "" (Except.ok ()) (Except.ok ()) = Except.ok "sink" ∧
    ((getIpcMessage ipc rpcUnmarshal sinkUnmarshal raw).isNone = true ↔
      (if ipc = "rpc" then rpcUnmarshal raw = none
        else sinkUnmarshal raw = none)) := by
  refine ⟨?_, rfl, ?_⟩
  · cases alreadyInitialized with
    | true => simp [clientInit]
    | false =>
        by_cases h1 : ipc = ""
        · simp [clientInit, h1, clientInitRest_ok_iff]
        · by_cases h2 : ipc = "sink"
          · simp [clientInit, h1, h2, clientInitRest_ok_iff]
          · by_cases h3 : ipc = "rpc"
            · simp [clientInit, h1, h2, h3, clientInitRest_ok_iff]
            · simp [clientInit, h1, h2, h3]
  · by_cases h : ipc = "rpc" <;>
      simp [getIpcMessage, h, Option.isNone_iff_eq_none]

/-- The per-record loop aborts at the first malformed record, after
having emitted every earlier (well-formed) record. -/
theorem processRecords_append_bad (unmarshalFlow : Bytes → Option FlowMessage)
    (marshalIndent : FlowMessage → Bytes) (bad : TelemetryMessage)
    (post : List TelemetryMessage)
    (hbad : unmarshalFlow bad.bytes = none) :
    ∀ pre : List TelemetryMessage,
      (∀ r ∈ pre, (unmarshalFlow r.bytes).isSome) →
      processRecords unmarshalFlow marshalIndent (pre ++ bad :: post)
        = (Except.error "invalid netflow message received",
            pre.filterMap (fun r => (unmarshalFlow r.bytes).map marshalIndent)) := by
  intro pre
  induction pre with
  | nil => intro _; simp [processRecords, hbad]
  | cons r pre' ih =>
      intro hall
      obtain ⟨flow, hflow⟩ :=
        Option.isSome_iff_exists.mp (hall r (by simp))
      have hrest := ih (fun x hx => hall x (by simp [hx]))
      simp [processRecords, hflow, hrest, List.filterMap_cons]

/-- Claim C2 (amended): in telemetry mode a malformed outer envelope
fails the batch with a decode error and zero handler invocations, and a
malformed inner record fails the whole batch with a decode error — but
the records before the malformed one have already been emitted, so a
malformed record at position 2 of 3 yields one emission, not zero. -/
theorem telemetry_whole_batch_decode_error
    (unmarshalLog : Bytes → Option TelemetryMessageLog)
    (unmarshalFlow : Bytes → Option FlowMessage)
    (marshalIndent : FlowMessage → Bytes) :
    (∀ data, unmarshalLog data = none →
        processTelemetry unmarshalLog unmarshalFlow marshalIndent data
          = (Except.error "invalid telemetry message received", [])) ∧
    (∀ data log (pre : List TelemetryMessage) bad post,
        unmarshalLog data = some log →
        log.message = pre ++ bad :: post →
        (∀ r ∈ pre, (unmarshalFlow r.bytes).isSome) →
        unmarshalFlow bad.bytes = none →
        processTelemetry unmarshalLog unmarshalFlow marshalIndent data
          = (Except.error "invalid netflow message received",
              pre.filterMap
                (fun r => (unmarshalFlow r.bytes).map marshalIndent))) := by
  constructor
  · intro data h
    simp [processTelemetry, h]
  · intro data log pre bad post hlog hmsg hpre hbad
    simp [processTelemetry, hlog, hmsg,
      processRecords_append_bad unmarshalFlow marshalIndent bad post hbad
        pre hpre]

/-- Claim C2 counterexample: an envelope of three records whose second
record is malformed produces one handler invocation (for the first
record), not zero — the emission is partial, not suppressed. -/
theorem telemetry_partial_emission_counterexample :
    processTelemetry demoUnmarshalLog demoUnmarshalFlow demoMarshalIndent [0]
      = (Except.error "invalid netflow message received", [[1]]) ∧
    ([[1]] : List Bytes).length = 1 := ⟨rfl, rfl⟩

theorem telemetry_whole_batch_decode_error_witness :
    (demoUnmarshalLog [0] = some ⟨[⟨[1]⟩, ⟨[2]⟩, ⟨[3]⟩]⟩) ∧
    (demoUnmarshalFlow [2] = none) ∧
    processTelemetry demoUnmarshalLog demoUnmarshalFlow demoMarshalIndent [0]
      = (Except.error "invalid netflow message received",
          ([⟨[1]⟩] : List TelemetryMessage).filterMap
            (fun r => (demoUnmarshalFlow r.bytes).map demoMarshalIndent)) :=
  ⟨by decide, by decide,
    (telemetry_whole_batch_decode_error demoUnmarshalLog demoUnmarshalFlow
        demoMarshalIndent).2
      [0] ⟨[⟨[1]⟩, ⟨[2]⟩, ⟨[3]⟩]⟩ [⟨[1]⟩] ⟨[2]⟩ [⟨[3]⟩]
      (by decide) (by decide) (by decide) (by decide)⟩

/-- Claim C10: in every state reachable from the empty maps by
`processMessage` and `bufferCleanup` steps, a messageID has buffered
bytes exactly when it has a recorded watermark — both maps always bind
the same key set. -/
theorem buffer_and_tracker_keys_aligned (st : KState) (h : Reachable st) :
    ∀ id, (alookup st.msgBuffer id).isSome
        = (alookup st.chunkTracker id).isSome := by
  induction h with
  | init => intro id; rfl
  | msg st' m _ ih =>
      intro id
      by_cases hne : m.chunk ≠ m.total
      · by_cases hacc : (alookup st'.chunkTracker m.id).getD 0 < m.chunk
        · by_cases hid : id = m.id
          · subst hid
            simp [processMessage, hne, hacc, alookup_aset_self]
          · have h1 := alookup_aset_ne st'.msgBuffer m.id id
              (((alookup st'.msgBuffer m.id).getD []) ++ m.content) hid
            have h2 := alookup_aset_ne st'.chunkTracker m.id id m.chunk hid
            simp [processMessage, hne, hacc, h1, h2, ih id]
        · simp [processMessage, hne, hacc, ih id]
      · by_cases hid : id = m.id
        · subst hid
          simp [processMessage, hne, bufferCleanup, alookup_aerase_self]
        · simp [processMessage, hne, bufferCleanup,
            alookup_aerase_ne _ _ _ hid, ih id]
  | cleanup st' cid _ ih =>
      intro id
      by_cases hid : id = cid
      · subst hid
        simp [bufferCleanup, alookup_aerase_self]
      · simp [bufferCleanup, alookup_aerase_ne _ _ _ hid, ih id]

theorem buffer_and_tracker_keys_aligned_witness :
    (alookup (processMessage createVariables ⟨1, 3, "m", [7]⟩).2.msgBuffer
        "m").isSome
      = (alookup (processMessage createVariables ⟨1, 3, "m", [7]⟩).2.chunkTracker
          "m").isSome :=
  buffer_and_tracker_keys_aligned _
    (Reachable.msg _ ⟨1, 3, "m", [7]⟩ Reachable.init) "m"

/-- Driving one message's chunks `k..k+n-1` (the last being final) from
any state whose watermark for the id is below `k`: every non-final call
returns nil, the final call returns the buffered bytes followed by the
chunk payloads in order, and the id is absent from both maps
afterwards. -/
theorem applyAll_chunkSeqFrom (id : String) :
    ∀ (ps : List Bytes) (st : KState) (k total : Int),
      ps ≠ [] → total = k + ps.length - 1 → total ≠ 1 →
      (alookup st.chunkTracker id).getD 0 < k →
      (applyAll st (chunkSeqFrom id total k ps)).1
          = List.replicate (ps.length - 1) none
            ++ [goOpt (((alookup st.msgBuffer id).getD []) ++ ps.join)] ∧
      alookup (applyAll st (chunkSeqFrom id total k ps)).2.msgBuffer id
          = none ∧
      alookup (applyAll st (chunkSeqFrom id total k ps)).2.chunkTracker id
          = none := by
  intro ps
  induction ps with
  | nil => intro st k total hne; exact absurd rfl hne
  | cons p ps' ih =>
      intro st k total _ htot h1 htr
      cases ps' with
      | nil =>
          have hk : total = k := by
            simp only [List.length_cons, List.length_nil] at htot
            push_cast at htot
            omega
          subst hk
          refine ⟨?_, ?_, ?_⟩ <;>
            simp [applyAll, chunkSeqFrom, processMessage, finalData, h1,
              bufferCleanup, alookup_aerase_self]
      | cons q rest =>
          have hkt : k ≠ total := by
            simp only [List.length_cons] at htot
            push_cast at htot
            omega
          have hpm : processMessage st ⟨k, total, id, p⟩
              = (none,
                  ⟨aset st.msgBuffer id
                      (((alookup st.msgBuffer id).getD []) ++ p),
                    aset st.chunkTracker id k⟩) := by
            simp [processMessage, hkt, htr]
          have htot' : total = (k + 1) + ((q :: rest).length : Int) - 1 := by
            simp only [List.length_cons] at htot ⊢
            push_cast at htot ⊢
            omega
          have htr' : (alookup (aset st.chunkTracker id k) id).getD 0
              < k + 1 := by
            rw [alookup_aset_self]; simp
          obtain ⟨ihf, ihb, iht⟩ :=
            ih ⟨aset st.msgBuffer id (((alookup st.msgBuffer id).getD []) ++ p),
                  aset st.chunkTracker id k⟩
              (k + 1) total (by simp) htot' h1 htr'
          have hbuf : (alookup
              (aset st.msgBuffer id (((alookup st.msgBuffer id).getD []) ++ p))
              id).getD []
              = ((alookup st.msgBuffer id).getD []) ++ p := by
            rw [alookup_aset_self]; rfl
          have happly : applyAll st (chunkSeqFrom id total k (p :: q :: rest))
              = ((processMessage st ⟨k, total, id, p⟩).1 ::
                    (applyAll (processMessage st ⟨k, total, id, p⟩).2
                      (chunkSeqFrom id total (k + 1) (q :: rest))).1,
                  (applyAll (processMessage st ⟨k, total, id, p⟩).2
                    (chunkSeqFrom id total (k + 1) (q :: rest))).2) := rfl
          refine ⟨?_, ?_, ?_⟩
          · rw [happly]
            simp only [hpm]
            rw [ihf, hbuf]
            simp [List.replicate_succ, List.append_assoc]
          · rw [happly]
            simp only [hpm]
            exact ihb
          · rw [happly]
            simp only [hpm]
            exact iht

/-- Claim C5: a message delivered as fragments in chunk order `1..n`
(with a non-empty overall payload) releases the concatenation of the
payloads, in order, exactly once — on the final fragment, every earlier
application returning nil — and afterwards no entry for that messageID
remains in either map. -/
theorem ordered_reassembly (id : String) (ps : List Bytes) (st : KState)
    (hne : ps ≠ []) (hjoin : ps.join ≠ [])
    (hb : alookup st.msgBuffer id = none)
    (ht : alookup st.chunkTracker id = none) :
    (applyAll st (chunkSeq id ps)).1
        = List.replicate (ps.length - 1) none ++ [some ps.join] ∧
    alookup (applyAll st (chunkSeq id ps)).2.msgBuffer id = none ∧
    alookup (applyAll st (chunkSeq id ps)).2.chunkTracker id = none := by
  cases ps with
  | nil => exact absurd rfl hne
  | cons p ps' =>
      cases ps' with
      | nil =>
          have hj : p ≠ [] := by simpa using hjoin
          refine ⟨?_, ?_, ?_⟩ <;>
            simp [chunkSeq, chunkSeqFrom, applyAll, processMessage, finalData,
              goOpt, hj, bufferCleanup, alookup_aerase_self]
      | cons q rest =>
          have h2 : (((p :: q :: rest).length : Int)) ≠ 1 := by
            simp only [List.length_cons]
            push_cast
            omega
          have htot : (((p :: q :: rest).length : Int))
              = 1 + ((p :: q :: rest).length : Int) - 1 := by ring
          obtain ⟨hf, hb', ht'⟩ :=
            applyAll_chunkSeqFrom id (p :: q :: rest) st 1
              ((p :: q :: rest).length : Int) (by simp) htot h2
              (by rw [ht]; simp)
          refine ⟨?_, hb', ht'⟩
          have hgo : goOpt ((p :: q :: rest).join)
              = some ((p :: q :: rest).join) := by
            unfold goOpt
            rw [if_neg hjoin]
          rw [hb] at hf
          simp only [Option.getD_none, List.nil_append] at hf
          rw [chunkSeq, hf, hgo]

theorem ordered_reassembly_witness :
    (([[65, 66], [67, 68], [69, 70]] : List Bytes) ≠ []) ∧
    (([[65, 66], [67, 68], [69, 70]] : List Bytes).join ≠ []) ∧
    (applyAll createVariables
        (chunkSeq "m1" [[65, 66], [67, 68], [69, 70]])).1
      = List.replicate 2 none ++ [some [65, 66, 67, 68, 69, 70]] ∧
    alookup (applyAll createVariables
        (chunkSeq "m1" [[65, 66], [67, 68], [69, 70]])).2.msgBuffer "m1"
      = none ∧
    alookup (applyAll createVariables
        (chunkSeq "m1" [[65, 66], [67, 68], [69, 70]])).2.chunkTracker "m1"
      = none :=
  ⟨by decide, by decide,
    (ordered_reassembly "m1" [[65, 66], [67, 68], [69, 70]] createVariables
        (by decide) (by decide) rfl rfl).1,
    (ordered_reassembly "m1" [[65, 66], [67, 68], [69, 70]] createVariables
        (by decide) (by decide) rfl rfl).2.1,
    (ordered_reassembly "m1" [[65, 66], [67, 68], [69, 70]] createVariables
        (by decide) (by decide) rfl rfl).2.2⟩
